import Mathlib

/-!
Shallow embedding of the single-page workshop controller in
`assets/js/app.js` (Linear-Algebra-Labs-By-Ashish).

Modelling conventions:
* A manifest module record is an `App.Module` structure. The JS records are
  duck-typed JSON objects; optional fields become `Option`. Numeric `order`
  values are modelled as integers (the code only compares them).
* JS string truthiness (`if (x)`) on an optional string is modelled as
  "present and nonempty".
* `title.localeCompare` is modelled as code-point lexicographic comparison
  of the characters (`lexCmpN` below on `Char.toNat` lists).
* `[...modules].sort(cmp)` is a stable sort by the comparator `moduleCmp`;
  it is modelled by `List.insertionSort` over the reflexive relation
  `moduleCmp a b ≠ .gt`, which is stable in the same sense.
* The DOM is modelled by the state bits the script reads back: the
  `viewer-active` body class, the `hidden` attribute of the viewer section,
  the iframe `src` attribute, `state.sidebarOpen`, the query string of
  `window.location`, and the pushed history entries. The page is modelled
  with all referenced elements present (the `?.`/null guards in the script
  only skip work when an element is missing from the page).
-/

namespace App

/-- One manifest record (§3 of the spec): `id`, optional `title`, optional
`summary`, optional numeric `order`, and the content `path`. -/
structure Module where
  id : String
  title : Option String
  summary : Option String
  order : Option Int
  path : String
deriving DecidableEq

/-- Code-point comparison of two character streams, the model of
`String.prototype.localeCompare` used by the sort tie-break. -/
def lexCmpN : List Nat → List Nat → Ordering
  | [], [] => .eq
  | [], _ :: _ => .lt
  | _ :: _, [] => .gt
  | a :: as, b :: bs =>
    if a < b then .lt else if b < a then .gt else lexCmpN as bs

/-- String comparison used for the `title` tie-break. -/
def strCmpJS (s t : String) : Ordering :=
  lexCmpN (s.data.map Char.toNat) (t.data.map Char.toNat)

/-- Sign of `x - y` for two present numeric `order` values. -/
def numCmp (x y : Int) : Ordering :=
  if x < y then .lt else if y < x then .gt else .eq

/-- The comparator passed to `Array.prototype.sort` in `sortModules`:
compare `order` (absent = positive infinity, so an absent order sorts
after every present one), tie-break by `title` (absent title = ""). -/
def moduleCmp (a b : Module) : Ordering :=
  match a.order, b.order with
  | some x, some y =>
    if x = y then strCmpJS (a.title.getD "") (b.title.getD "") else numCmp x y
  | some _, none => .lt
  | none, some _ => .gt
  | none, none => strCmpJS (a.title.getD "") (b.title.getD "")

/-- `a` may come no later than `b` under the comparator. -/
def moduleLE (a b : Module) : Bool :=
  moduleCmp a b != Ordering.gt

/-- `moduleLE` as a relation, for the sort. -/
def moduleRel (a b : Module) : Prop :=
  moduleLE a b = true

instance : DecidableRel moduleRel := fun a b =>
  inferInstanceAs (Decidable (moduleLE a b = true))

/-- `sortModules`: stable sort of the manifest list by `moduleCmp`. -/
def sortModules (modules : List Module) : List Module :=
  List.insertionSort moduleRel modules

theorem lexCmpN_swap (a b : List Nat) : lexCmpN b a = (lexCmpN a b).swap := by
  induction a generalizing b with
  | nil => cases b <;> rfl
  | cons x as ih =>
    cases b with
    | nil => rfl
    | cons y bs =>
      simp only [lexCmpN]
      split_ifs with h1 h2 h2 <;> first
        | rfl
        | omega
        | (have hxy : x = y := by omega
           subst hxy
           exact ih bs)

/-- Unpack "the head comparison did not say greater". -/
theorem lexCmpN_cons_ne_gt {x y : Nat} {as bs : List Nat}
    (h : lexCmpN (x :: as) (y :: bs) ≠ .gt) :
    x < y ∨ (x = y ∧ lexCmpN as bs ≠ .gt) := by
  by_cases hxy : x < y
  · exact .inl hxy
  · right
    simp only [lexCmpN, if_neg hxy] at h
    by_cases hyx : y < x
    · rw [if_pos hyx] at h
      exact absurd rfl h
    · rw [if_neg hyx] at h
      exact ⟨by omega, h⟩

theorem lexCmpN_trans {a b c : List Nat} (h1 : lexCmpN a b ≠ .gt)
    (h2 : lexCmpN b c ≠ .gt) : lexCmpN a c ≠ .gt := by
  induction a generalizing b c with
  | nil => cases c <;> simp [lexCmpN]
  | cons x as ih =>
    cases b with
    | nil => simp [lexCmpN] at h1
    | cons y bs =>
      cases c with
      | nil => simp [lexCmpN] at h2
      | cons z cs =>
        rcases lexCmpN_cons_ne_gt h1 with hlt1 | ⟨heq1, ht1⟩ <;>
          rcases lexCmpN_cons_ne_gt h2 with hlt2 | ⟨heq2, ht2⟩ <;>
          simp only [lexCmpN]
        · rw [if_pos (by omega : x < z)]
          simp
        · rw [if_pos (by omega : x < z)]
          simp
        · rw [if_pos (by omega : x < z)]
          simp
        · rw [if_neg (by omega : ¬ x < z), if_neg (by omega : ¬ z < x)]
          exact ih ht1 ht2

theorem strCmpJS_swap (s t : String) : strCmpJS t s = (strCmpJS s t).swap :=
  lexCmpN_swap _ _

theorem strCmpJS_trans {s t u : String} (h1 : strCmpJS s t ≠ .gt)
    (h2 : strCmpJS t u ≠ .gt) : strCmpJS s u ≠ .gt :=
  lexCmpN_trans h1 h2

theorem moduleCmp_swap (a b : Module) : moduleCmp b a = (moduleCmp a b).swap := by
  unfold moduleCmp
  cases ha : a.order <;> cases hb : b.order <;> dsimp only
  · exact strCmpJS_swap _ _
  · rfl
  · rfl
  · rename_i x y
    by_cases hxy : y = x
    · subst hxy
      simp only [if_pos rfl]
      exact strCmpJS_swap _ _
    · rw [if_neg hxy, if_neg (fun h => hxy h.symm)]
      unfold numCmp
      split_ifs <;> first | rfl | omega

theorem bne_gt_iff (o : Ordering) : (o != Ordering.gt) = true ↔ o ≠ .gt := by
  cases o <;> decide

theorem moduleRel_total (a b : Module) : moduleRel a b ∨ moduleRel b a := by
  unfold moduleRel moduleLE
  rw [moduleCmp_swap a b]
  cases moduleCmp a b <;> decide

theorem moduleRel_trans {a b c : Module} (h1 : moduleRel a b)
    (h2 : moduleRel b c) : moduleRel a c := by
  unfold moduleRel moduleLE at h1 h2 ⊢
  rw [bne_gt_iff] at h1 h2 ⊢
  unfold moduleCmp at h1 h2 ⊢
  rcases ha : a.order with _ | x <;> rcases hb : b.order with _ | y <;>
      rcases hc : c.order with _ | z <;> simp only [ha, hb, hc] at h1 h2 ⊢
  · exact strCmpJS_trans h1 h2
  · exact absurd rfl h2
  · exact absurd rfl h1
  · exact absurd rfl h1
  · decide
  · exact absurd rfl h2
  · decide
  · by_cases hxy : x = y <;> by_cases hyz : y = z
    · subst hxy; subst hyz
      rw [if_pos rfl] at h1 h2 ⊢
      exact strCmpJS_trans h1 h2
    · subst hxy
      rw [if_pos rfl] at h1
      rw [if_neg hyz] at h2
      rw [if_neg hyz]
      exact h2
    · subst hyz
      rw [if_pos rfl] at h2
      rw [if_neg hxy] at h1
      rw [if_neg hxy]
      exact h1
    · rw [if_neg hxy] at h1
      rw [if_neg hyz] at h2
      unfold numCmp at h1 h2
      have hxly : x < y := by
        by_contra h
        rw [if_neg (by omega : ¬ x < y), if_pos (by omega : y < x)] at h1
        exact h1 rfl
      have hylz : y < z := by
        by_contra h
        rw [if_neg (by omega : ¬ y < z), if_pos (by omega : z < y)] at h2
        exact h2 rfl
      rw [if_neg (by omega : ¬ x = z)]
      unfold numCmp
      rw [if_pos (by omega : x < z)]
      simp

instance : IsTotal Module moduleRel := ⟨moduleRel_total⟩

instance : IsTrans Module moduleRel := ⟨fun _ _ _ => moduleRel_trans⟩

/-- The fixed fallback summary string `FALLBACK_SUMMARY`. -/
def FALLBACK_SUMMARY : String :=
  "Open the workshop to explore the walkthrough, examples, and practice material."

/-- Consume `sep` as a prefix of the stream, returning the remainder. -/
def dropSep : List Char → List Char → Option (List Char)
  | [], l => some l
  | _ :: _, [] => none
  | s :: ss, c :: cs => if c = s then dropSep ss cs else none

/-- Leftmost occurrence of the (nonempty) separator `sep`: the part before
it and the part after it, or `none` when `sep` does not occur. -/
def splitFirst (sep : List Char) : List Char → Option (List Char × List Char)
  | [] => none
  | c :: cs =>
    match dropSep sep (c :: cs) with
    | some rest => some ([], rest)
    | none =>
      match splitFirst sep cs with
      | some (pre, post) => some (c :: pre, post)
      | none => none

/-- `title.split(" - ")[1]`: the segment between the first " - " and the
next one (or the end); `none` when the title holds no " - " at all, like
the `undefined` of the JS destructuring. -/
def subtitleJS (t : String) : Option String :=
  match splitFirst " - ".data t.data with
  | none => none
  | some (_, rest) =>
    match splitFirst " - ".data rest with
    | some (mid, _) => some ⟨mid⟩
    | none => some ⟨rest⟩

/-- `String.prototype.trim`: strip whitespace from both ends. -/
def trimJS (s : String) : String :=
  ⟨((s.data.dropWhile Char.isWhitespace).reverse.dropWhile
      Char.isWhitespace).reverse⟩

/-- The title-derivation half of `buildSummary`: a truthy (nonempty) title
with a truthy (present, nonempty) `split(" - ")[1]` segment gives
"Focus: " plus the trimmed segment, anything else the fallback. -/
def buildSummaryFromTitle : Option String → String
  | some t =>
    if t ≠ "" then
      match subtitleJS t with
      | some sub =>
        if sub ≠ "" then "Focus: " ++ trimJS sub else FALLBACK_SUMMARY
      | none => FALLBACK_SUMMARY
    else FALLBACK_SUMMARY
  | none => FALLBACK_SUMMARY

/-- `buildSummary`: a truthy (present, nonempty) `summary` verbatim,
otherwise the title derivation.  The truthiness tests `if (module.summary)`,
`if (module.title)` and `if (subtitle)` of the JS are the nonemptiness
tests here. -/
def buildSummary (m : Module) : String :=
  match m.summary with
  | some s => if s ≠ "" then s else buildSummaryFromTitle m.title
  | none => buildSummaryFromTitle m.title

/-- A `window.history` entry pushed by `pushState`: the `moduleId` carried in
the state object (absent for the summary entry) and the query string of the
pushed URL. -/
structure HistoryEntry where
  moduleId : Option String
  query : List (String × String)
deriving DecidableEq

/-- The observable page state: the `state` object of the script plus the DOM
and browser bits it reads back.  `viewerActive` is the `viewer-active` body
class, `viewerHidden` the `hidden` attribute of the viewer section,
`frameSrc` the iframe `src` attribute (absent when removed), `query` the
query parameters of `window.location`, `history` the stack of entries pushed
by `window.history.pushState` (most recent first). -/
structure AppState where
  modules : List Module
  activeId : Option String
  sidebarOpen : Bool
  viewerActive : Bool
  viewerHidden : Bool
  frameSrc : Option String
  query : List (String × String)
  history : List HistoryEntry
deriving DecidableEq

/-- `URLSearchParams.get`: value of the first pair with the given key. -/
def getParam (q : List (String × String)) (k : String) : Option String :=
  (q.find? (fun p => p.1 == k)).map (fun p => p.2)

/-- `URLSearchParams.has`. -/
def hasParam (q : List (String × String)) (k : String) : Bool :=
  q.any (fun p => p.1 == k)

/-- `URLSearchParams.delete`: remove every pair with the given key. -/
def delParam (q : List (String × String)) (k : String) : List (String × String) :=
  q.filter (fun p => p.1 != k)

/-- `URLSearchParams.set`: overwrite the first pair with the given key (and
drop any further ones), or append the pair if the key is absent. -/
def setParam : List (String × String) → String → String → List (String × String)
  | [], k, v => [(k, v)]
  | p :: rest, k, v =>
    if p.1 == k then (k, v) :: delParam rest k else p :: setParam rest k v

/-- `hasModule`: membership of an id in the registry. -/
def hasModule (modules : List Module) (moduleId : String) : Bool :=
  modules.any (fun m => m.id == moduleId)

/-- `setSidebarOpen` (the body-class / aria mirrors carry the same bit). -/
def setSidebarOpen (s : AppState) (v : Bool) : AppState :=
  { s with sidebarOpen := v }

/-- `showViewer`: unhide the viewer, set the `viewer-active` class, close
the sidebar. -/
def showViewer (s : AppState) : AppState :=
  setSidebarOpen { s with viewerHidden := false, viewerActive := true } false

/-- `loadModule(moduleId, { pushState })`: no-op when the id is not in the
registry; otherwise select the module, reveal the viewer, retarget the frame
(only when the `src` differs), and optionally set the `module` query
parameter and push a history entry carrying the id. -/
def loadModule (s : AppState) (moduleId : String) (push : Bool) : AppState :=
  match s.modules.find? (fun item => item.id == moduleId) with
  | none => s
  | some m =>
    let s1 := showViewer { s with activeId := some m.id }
    let s2 :=
      if s1.frameSrc = some m.path then s1 else { s1 with frameSrc := some m.path }
    if push then
      let q := setParam s2.query "module" m.id
      { s2 with query := q, history := ⟨some m.id, q⟩ :: s2.history }
    else s2

/-- `showSummary({ pushState })`: clear the selection, drop the
`viewer-active`/`sidebar-open` classes, close the sidebar, hide the viewer,
remove the frame `src`, and — when pushing and the URL carries a `module`
parameter — delete it and push a history entry without a module id. -/
def showSummary (s : AppState) (push : Bool) : AppState :=
  let s1 := setSidebarOpen
    { s with activeId := none, viewerActive := false, sidebarOpen := false } false
  let s2 := { s1 with viewerHidden := true, frameSrc := none }
  if push && hasParam s2.query "module" then
    let q := delParam s2.query "module"
    { s2 with query := q, history := ⟨none, q⟩ :: s2.history }
  else s2

/-- `applyLocation({ pushState = false })`: read the `module` query
parameter; a truthy value naming a known module loads it, anything else
shows the summary without pushing. -/
def applyLocation (s : AppState) (push : Bool) : AppState :=
  match getParam s.query "module" with
  | some mid =>
    if mid ≠ "" && hasModule s.modules mid then loadModule s mid push
    else showSummary s false
  | none => showSummary s false

/-- `handleKeyDown`: Escape closes an open sidebar, else leaves an active
viewer for the summary, else does nothing. -/
def handleKeyDown (s : AppState) (key : String) : AppState :=
  if key ≠ "Escape" then s
  else if s.sidebarOpen then setSidebarOpen s false
  else if s.viewerActive then showSummary s true
  else s

/-- One global replacement of the single character `c` by `rep`, the model
of `String.prototype.replace` with a global single-character pattern. -/
def repC (c : Char) (rep : List Char) : List Char → List Char
  | [] => []
  | x :: xs => (if x = c then rep else [x]) ++ repC c rep xs

/-- The five chained global replacements of the script, in source order
(ampersand first).  `Char.ofNat 34` is the double quote and `Char.ofNat 39`
the apostrophe. -/
def escChainL (l : List Char) : List Char :=
  repC (Char.ofNat 39) "&#39;".data
    (repC (Char.ofNat 34) "&quot;".data
      (repC '>' "&gt;".data
        (repC '<' "&lt;".data
          (repC '&' "&amp;".data l))))

/-- `escapeHtml` on an input that is a string (a non-string input returns
"" in the script and never reaches the replacements). -/
def escapeHtml (s : String) : String :=
  ⟨escChainL s.data⟩

/-- The intended per-character escaping: each of the five special
characters becomes its entity, every other character stays. -/
def escChar (c : Char) : List Char :=
  if c = '&' then "&amp;".data
  else if c = '<' then "&lt;".data
  else if c = '>' then "&gt;".data
  else if c = Char.ofNat 34 then "&quot;".data
  else if c = Char.ofNat 39 then "&#39;".data
  else [c]

/-- `escChar` applied to every character of a stream. -/
def escAll : List Char → List Char
  | [] => []
  | c :: cs => escChar c ++ escAll cs

/-- A parsed JSON value, for the shape check of the manifest body. -/
inductive Json where
  | null
  | bool (b : Bool)
  | num (n : Int)
  | str (s : String)
  | arr (elements : List Json)
  | obj (fields : List (String × Json))

/-- The two failure kinds of the manifest loader (§7 of the spec): the
non-success HTTP status error and the not-a-nonempty-list shape error. -/
inductive ManifestError where
  | fetchError (status : Nat)
  | shapeError
deriving DecidableEq

/-- What `fetchManifest` observes of the fetch: the HTTP status and the
parsed JSON body. -/
structure ManifestResponse where
  status : Nat
  body : Json

/-- `Response.ok`: status in the inclusive range 200–299. -/
def respOk (status : Nat) : Bool :=
  200 ≤ status && status ≤ 299

/-- `fetchManifest`: throw on a non-ok response, throw on a body that is
not a nonempty array, otherwise return the raw element list unmodified. -/
def fetchManifest (r : ManifestResponse) : Except ManifestError (List Json) :=
  if !respOk r.status then .error (.fetchError r.status)
  else
    match r.body with
    | .arr l => if l.length = 0 then .error .shapeError else .ok l
    | _ => .error .shapeError

/-- The page state before `init` ran: empty registry, no selection, sidebar
closed, viewer hidden, no frame source, the landing URL's query, empty
pushed-history stack. -/
def initState (q : List (String × String)) : AppState :=
  { modules := [], activeId := none, sidebarOpen := false,
    viewerActive := false, viewerHidden := true, frameSrc := none,
    query := q, history := [] }

/-- One event-handler invocation of the controller: `init` (manifest loaded,
sorted and the location applied), a card or sidebar click, the sidebar
toggle and close controls, a keydown, or a popstate carrying an arbitrary
restored location. -/
inductive Step : AppState → AppState → Prop where
  | init (s : AppState) (ms : List Module) :
      Step s (applyLocation { s with modules := sortModules ms } false)
  | click (s : AppState) (moduleId : String) :
      Step s (loadModule s moduleId true)
  | sidebarClick (s : AppState) (moduleId : String) :
      Step s (setSidebarOpen (loadModule s moduleId true) false)
  | toggleSidebar (s : AppState) :
      Step s (setSidebarOpen s (!s.sidebarOpen))
  | closeSidebar (s : AppState) :
      Step s (setSidebarOpen s false)
  | keydown (s : AppState) (key : String) :
      Step s (handleKeyDown s key)
  | popstate (s : AppState) (q : List (String × String)) :
      Step s (applyLocation { s with query := q } false)

/-- A state the page can be in: finitely many handler invocations after
landing on some URL. -/
def Reachable (s : AppState) : Prop :=
  ∃ q, Relation.ReflTransGen Step (initState q) s

/-- The registry invariant of §3: a set `activeId` names a module of the
registry. -/
def ActiveIdOk (s : AppState) : Prop :=
  ∀ a, s.activeId = some a → ∃ m ∈ s.modules, m.id = a

/-- The sort key of the spec's words: `order` ascending with absent order
as positive infinity. -/
def orderKey (m : Module) : WithTop Int :=
  match m.order with
  | some x => (x : WithTop Int)
  | none => ⊤

/-- The spec's description of the render order: strictly smaller `order`
key, or equal `order` keys and `title` (absent = "") not greater. -/
def specLE (a b : Module) : Prop :=
  orderKey a < orderKey b ∨
    (orderKey a = orderKey b ∧ strCmpJS (a.title.getD "") (b.title.getD "") ≠ .gt)

/-- The comparator relation coincides with the spec's description of the
order. -/
theorem moduleRel_iff_specLE (a b : Module) : moduleRel a b ↔ specLE a b := by
  unfold moduleRel moduleLE specLE orderKey
  rw [bne_gt_iff]
  unfold moduleCmp
  rcases ha : a.order with _ | x <;> rcases hb : b.order with _ | y <;>
    simp only [ha, hb]
  · simp
  · simp [WithTop.coe_lt_top]
  · simp [WithTop.coe_lt_top]
  · by_cases hxy : x = y
    · subst hxy
      simp
    · rw [if_neg hxy]
      unfold numCmp
      by_cases hlt : x < y
      · rw [if_pos hlt]
        simp [hlt]
      · rw [if_neg hlt, if_pos (by omega : y < x)]
        simp only [WithTop.coe_lt_coe, WithTop.coe_eq_coe]
        simp [hxy, hlt]

theorem getParam_setParam (q : List (String × String)) (k v : String) :
    getParam (setParam q k v) k = some v := by
  induction q with
  | nil => simp [setParam, getParam]
  | cons p rest ih =>
    by_cases h : p.1 == k
    · simp [setParam, h, getParam]
    · simp only [setParam, h, if_neg]
      simpa [getParam, List.find?_cons, h] using ih

theorem getParam_delParam (q : List (String × String)) (k : String) :
    getParam (delParam q k) k = none := by
  induction q with
  | nil => rfl
  | cons p rest ih =>
    by_cases h : p.1 == k
    · simpa [delParam, List.filter_cons, bne, h] using ih
    · simpa [delParam, getParam, List.filter_cons, bne, h, List.find?_cons] using ih

theorem getParam_eq_none_of_hasParam_false {q : List (String × String)}
    {k : String} (h : hasParam q k = false) : getParam q k = none := by
  induction q with
  | nil => rfl
  | cons p rest ih =>
    simp only [hasParam, List.any_cons, Bool.or_eq_false_iff] at h
    simp only [getParam, List.find?_cons, h.1, Option.map]
    exact ih (by simpa [hasParam] using h.2)

theorem find?_eq_none_of_hasModule_false {modules : List Module}
    {moduleId : String} (h : hasModule modules moduleId = false) :
    modules.find? (fun item => item.id == moduleId) = none := by
  rw [List.find?_eq_none]
  intro m hm hpred
  have hany : hasModule modules moduleId = true := by
    simp only [hasModule, List.any_eq_true]
    exact ⟨m, hm, hpred⟩
  rw [h] at hany
  exact Bool.false_ne_true hany

theorem find?_some_of_hasModule {modules : List Module} {moduleId : String}
    (h : hasModule modules moduleId = true) :
    ∃ m, modules.find? (fun item => item.id == moduleId) = some m ∧
      m ∈ modules ∧ m.id = moduleId := by
  simp only [hasModule, List.any_eq_true] at h
  have hsome : (modules.find? (fun item => item.id == moduleId)).isSome :=
    List.find?_isSome.mpr h
  obtain ⟨m, hm⟩ := Option.isSome_iff_exists.mp hsome
  refine ⟨m, hm, List.mem_of_find?_eq_some hm, ?_⟩
  have := List.find?_some hm
  simpa using this

theorem loadModule_modules (s : AppState) (moduleId : String) (push : Bool) :
    (loadModule s moduleId push).modules = s.modules := by
  unfold loadModule
  cases s.modules.find? (fun item => item.id == moduleId) <;>
    simp only [showViewer, setSidebarOpen] <;> split_ifs <;> rfl

theorem loadModule_sidebarOpen_of_found {s : AppState} {moduleId : String}
    {m : Module} (h : s.modules.find? (fun item => item.id == moduleId) = some m)
    (push : Bool) : (loadModule s moduleId push).sidebarOpen = false := by
  unfold loadModule
  rw [h]
  simp only [showViewer, setSidebarOpen]
  split_ifs <;> rfl

theorem loadModule_activeId_of_found {s : AppState} {moduleId : String}
    {m : Module} (h : s.modules.find? (fun item => item.id == moduleId) = some m)
    (push : Bool) : (loadModule s moduleId push).activeId = some m.id := by
  unfold loadModule
  rw [h]
  simp only [showViewer, setSidebarOpen]
  split_ifs <;> rfl

theorem loadModule_history_of_push_false (s : AppState) (moduleId : String) :
    (loadModule s moduleId false).history = s.history := by
  unfold loadModule
  cases s.modules.find? (fun item => item.id == moduleId) <;>
    simp only [showViewer, setSidebarOpen] <;> split_ifs <;>
    first | rfl | simp_all

theorem showSummary_activeId (s : AppState) (push : Bool) :
    (showSummary s push).activeId = none := by
  unfold showSummary
  simp only [setSidebarOpen]
  split_ifs <;> rfl

theorem showSummary_modules (s : AppState) (push : Bool) :
    (showSummary s push).modules = s.modules := by
  unfold showSummary
  simp only [setSidebarOpen]
  split_ifs <;> rfl

theorem showSummary_sidebarOpen (s : AppState) (push : Bool) :
    (showSummary s push).sidebarOpen = false := by
  unfold showSummary
  simp only [setSidebarOpen]
  split_ifs <;> rfl

theorem showSummary_push_false (s : AppState) :
    (showSummary s false).history = s.history ∧
    (showSummary s false).query = s.query := by
  constructor <;> (unfold showSummary; simp [setSidebarOpen])

theorem activeIdOk_showSummary (s : AppState) (push : Bool) :
    ActiveIdOk (showSummary s push) := by
  intro a ha
  rw [showSummary_activeId] at ha
  exact absurd ha (by simp)

theorem activeIdOk_setSidebarOpen {s : AppState} (h : ActiveIdOk s) (v : Bool) :
    ActiveIdOk (setSidebarOpen s v) := h

theorem activeIdOk_loadModule {s : AppState} (h : ActiveIdOk s)
    (moduleId : String) (push : Bool) : ActiveIdOk (loadModule s moduleId push) := by
  intro a ha
  rw [loadModule_modules]
  cases hfind : s.modules.find? (fun item => item.id == moduleId) with
  | none =>
    apply h
    unfold loadModule at ha
    rw [hfind] at ha
    exact ha
  | some m =>
    rw [loadModule_activeId_of_found hfind] at ha
    obtain rfl : m.id = a := by simpa using ha
    exact ⟨m, List.mem_of_find?_eq_some hfind, rfl⟩

theorem activeIdOk_applyLocation (s : AppState) (push : Bool) :
    ActiveIdOk (applyLocation s push) := by
  cases hg : getParam s.query "module" with
  | none =>
    simp only [applyLocation, hg]
    exact activeIdOk_showSummary _ _
  | some mid =>
    simp only [applyLocation, hg]
    split_ifs with h
    · rw [Bool.and_eq_true] at h
      obtain ⟨m, hfind, hmem, hid⟩ := find?_some_of_hasModule h.2
      intro a ha
      rw [loadModule_activeId_of_found hfind] at ha
      obtain rfl : m.id = a := by simpa using ha
      rw [loadModule_modules]
      exact ⟨m, hmem, rfl⟩
    · exact activeIdOk_showSummary _ _

theorem activeIdOk_handleKeyDown {s : AppState} (h : ActiveIdOk s)
    (key : String) : ActiveIdOk (handleKeyDown s key) := by
  unfold handleKeyDown
  split_ifs
  · exact h
  · exact activeIdOk_setSidebarOpen h false
  · exact activeIdOk_showSummary _ _
  · exact h

theorem activeIdOk_step {s t : AppState} (h : ActiveIdOk s) (hs : Step s t) :
    ActiveIdOk t := by
  cases hs with
  | init ms => exact activeIdOk_applyLocation _ _
  | click moduleId => exact activeIdOk_loadModule h _ _
  | sidebarClick moduleId =>
    exact activeIdOk_setSidebarOpen (activeIdOk_loadModule h _ _) false
  | toggleSidebar => exact activeIdOk_setSidebarOpen h _
  | closeSidebar => exact activeIdOk_setSidebarOpen h false
  | keydown key => exact activeIdOk_handleKeyDown h key
  | popstate q => exact activeIdOk_applyLocation _ _

/-- C1: in every reachable state, `activeId` is either unset or the id of a
module of the registry, and each operation that writes `activeId`
(`loadModule`, `showSummary`, `applyLocation`) preserves this invariant. -/
theorem C1_activeId_invariant :
    (∀ s, Reachable s → ActiveIdOk s) ∧
    (∀ (s : AppState) (moduleId : String) (push : Bool),
       ActiveIdOk s → ActiveIdOk (loadModule s moduleId push)) ∧
    (∀ (s : AppState) (push : Bool), ActiveIdOk (showSummary s push)) ∧
    (∀ (s : AppState) (push : Bool), ActiveIdOk (applyLocation s push)) := by
  refine ⟨?_, fun s mid p h => activeIdOk_loadModule h mid p,
    fun s p => activeIdOk_showSummary s p,
    fun s p => activeIdOk_applyLocation s p⟩
  rintro s ⟨q, hr⟩
  induction hr with
  | refl =>
    intro a ha
    simp [initState] at ha
  | tail _ hstep ih => exact activeIdOk_step ih hstep

theorem C1_witness :
    ActiveIdOk (initState []) ∧
    ActiveIdOk (loadModule (initState []) "a" true) ∧
    ActiveIdOk (showSummary (initState []) true) ∧
    ActiveIdOk (applyLocation (initState []) false) :=
  ⟨C1_activeId_invariant.1 _ ⟨[], Relation.ReflTransGen.refl⟩,
   C1_activeId_invariant.2.1 _ "a" true
     (fun _ ha => absurd ha (by simp [initState])),
   C1_activeId_invariant.2.2.1 _ true,
   C1_activeId_invariant.2.2.2 _ false⟩

/-- C2: `sortModules` permutes the manifest into the order "by `order`
ascending, absent order last, ties by title, absent title as empty", and
the three-module example with titles "C", "A", "B" renders as A, B, C. -/
theorem C2_sortModules (ms : List Module) :
    (sortModules ms).Perm ms ∧
    (sortModules ms).Sorted specLE ∧
    sortModules
        [⟨"a", some "C", none, none, "course/a.html"⟩,
         ⟨"b", some "A", none, none, "course/b.html"⟩,
         ⟨"c", some "B", none, none, "course/c.html"⟩] =
      [⟨"b", some "A", none, none, "course/b.html"⟩,
       ⟨"c", some "B", none, none, "course/c.html"⟩,
       ⟨"a", some "C", none, none, "course/a.html"⟩] := by
  refine ⟨List.perm_insertionSort moduleRel ms, ?_, ?_⟩
  · exact List.Pairwise.imp (fun h => (moduleRel_iff_specLE _ _).mp h)
      (List.sorted_insertionSort moduleRel ms)
  · decide

/-- C4: `loadModule` with an id that is not in the registry is a complete
no-op on the state (selection, viewer, frame, URL and history included). -/
theorem C4_unknown_id_noop (s : AppState) (moduleId : String) (push : Bool)
    (h : hasModule s.modules moduleId = false) :
    loadModule s moduleId push = s := by
  unfold loadModule
  rw [find?_eq_none_of_hasModule_false h]

theorem C4_witness :
    loadModule
        { modules := [⟨"a", none, none, none, "p"⟩], activeId := none,
          sidebarOpen := false, viewerActive := false, viewerHidden := true,
          frameSrc := none, query := [], history := [] }
        "zzz" true =
      { modules := [⟨"a", none, none, none, "p"⟩], activeId := none,
        sidebarOpen := false, viewerActive := false, viewerHidden := true,
        frameSrc := none, query := [], history := [] } :=
  C4_unknown_id_noop _ "zzz" true (by decide)

/-- C9: on Escape, an open sidebar is closed (leaving selection and viewer
untouched); only with the sidebar already closed does an active viewer
return to the summary; with neither, nothing happens. -/
theorem C9_escape_key (s : AppState) :
    (s.sidebarOpen = true →
       handleKeyDown s "Escape" = setSidebarOpen s false ∧
       (handleKeyDown s "Escape").activeId = s.activeId ∧
       (handleKeyDown s "Escape").viewerActive = s.viewerActive ∧
       (handleKeyDown s "Escape").sidebarOpen = false) ∧
    (s.sidebarOpen = false → s.viewerActive = true →
       handleKeyDown s "Escape" = showSummary s true) ∧
    (s.sidebarOpen = false → s.viewerActive = false →
       handleKeyDown s "Escape" = s) := by
  refine ⟨fun h1 => ?_, fun h1 h2 => ?_, fun h1 h2 => ?_⟩
  · unfold handleKeyDown
    rw [if_neg (by simp), if_pos h1]
    exact ⟨rfl, rfl, rfl, rfl⟩
  · unfold handleKeyDown
    rw [if_neg (by simp), if_neg (by simp [h1]), if_pos h2]
  · unfold handleKeyDown
    rw [if_neg (by simp), if_neg (by simp [h1]), if_neg (by simp [h2])]

theorem C9_witness :
    handleKeyDown
        { modules := [], activeId := none, sidebarOpen := true,
          viewerActive := false, viewerHidden := true, frameSrc := none,
          query := [], history := [] } "Escape" =
      setSidebarOpen
        { modules := [], activeId := none, sidebarOpen := true,
          viewerActive := false, viewerHidden := true, frameSrc := none,
          query := [], history := [] } false :=
  ((C9_escape_key _).1 rfl).1

/-- C10: a successful `loadModule` (the id is in the registry) and any
`showSummary` leave the sidebar closed. -/
theorem C10_sidebar_closed :
    (∀ (s : AppState) (moduleId : String) (push : Bool),
       hasModule s.modules moduleId = true →
       (loadModule s moduleId push).sidebarOpen = false) ∧
    (∀ (s : AppState) (push : Bool), (showSummary s push).sidebarOpen = false) := by
  constructor
  · intro s mid p h
    obtain ⟨m, hfind, -, -⟩ := find?_some_of_hasModule h
    exact loadModule_sidebarOpen_of_found hfind p
  · intro s p
    exact showSummary_sidebarOpen s p

theorem buildSummary_of_summary_blank {m : Module} (hd : m.summary.getD "" = "") :
    buildSummary m = buildSummaryFromTitle m.title := by
  cases hs : m.summary with
  | none =>
    unfold buildSummary
    rw [hs]
  | some v =>
    rw [hs] at hd
    simp only [Option.getD_some] at hd
    unfold buildSummary
    rw [hs]
    simp [hd]

/-- C3 counterexample: a present-but-empty `summary` is not used verbatim
(the derivation runs instead), and a title whose " - " split has an empty
second segment yields the fallback, not "Focus: ". -/
theorem C3_counterexample :
    buildSummary ⟨"m1", some "A - B", some "", none, "p"⟩ = "Focus: B" ∧
    "Focus: B" ≠ "" ∧
    buildSummary ⟨"m2", some "A - ", none, none, "p"⟩ = FALLBACK_SUMMARY ∧
    FALLBACK_SUMMARY ≠ "Focus: " := by decide

/-- C3 (amended): the displayed summary is the module's `summary` verbatim
when it is present and nonempty; otherwise, when the title's " - " split
has a present, nonempty second segment, "Focus: " plus that segment
trimmed; otherwise the fixed fallback.  "Intro - Basics" yields
"Focus: Basics" and a separator-free title yields the fallback. -/
theorem C3_buildSummary (m : Module) :
    (∀ str, m.summary = some str → str ≠ "" → buildSummary m = str) ∧
    (m.summary.getD "" = "" → ∀ t sub, m.title = some t →
       subtitleJS t = some sub → sub ≠ "" →
       buildSummary m = "Focus: " ++ trimJS sub) ∧
    (m.summary.getD "" = "" →
       (∀ t, m.title = some t → (subtitleJS t).getD "" = "") →
       buildSummary m = FALLBACK_SUMMARY) ∧
    buildSummary ⟨"intro", some "Intro - Basics", none, none, "p"⟩ =
      "Focus: Basics" ∧
    buildSummary ⟨"plain", some "Workshop", none, none, "p"⟩ =
      FALLBACK_SUMMARY := by
  refine ⟨?_, ?_, ?_, by decide, by decide⟩
  · intro str hsum hne
    unfold buildSummary
    rw [hsum]
    simp [hne]
  · intro hd t sub ht hsub hne
    rw [buildSummary_of_summary_blank hd, ht]
    simp only [buildSummaryFromTitle]
    have htne : t ≠ "" := by
      intro he
      rw [he] at hsub
      rw [show subtitleJS "" = none from rfl] at hsub
      exact Option.noConfusion hsub
    rw [if_pos htne, hsub]
    simp [hne]
  · intro hd hall
    rw [buildSummary_of_summary_blank hd]
    cases ht : m.title with
    | none => rfl
    | some t =>
      simp only [buildSummaryFromTitle]
      by_cases hte : t = ""
      · simp [hte]
      · rw [if_pos hte]
        have hsub := hall t ht
        cases hs : subtitleJS t with
        | none => rfl
        | some sub =>
          have hz : sub = "" := by
            rw [hs] at hsub
            simpa using hsub
          simp [hz]

theorem C3_witness :
    buildSummary ⟨"w", some "T", some "Explicit", none, "p"⟩ = "Explicit" ∧
    buildSummary ⟨"w2", some "Intro - Basics", none, none, "p"⟩ =
      "Focus: " ++ trimJS "Basics" ∧
    buildSummary ⟨"w3", some "Workshop", none, none, "p"⟩ = FALLBACK_SUMMARY :=
  ⟨((C3_buildSummary _).1 "Explicit" rfl (by decide)),
   ((C3_buildSummary _).2.1 (by decide) "Intro - Basics" "Basics" rfl
      (by decide) (by decide)),
   ((C3_buildSummary _).2.2.1 (by decide) (fun t ht => by
      injection ht with h
      rw [← h]
      decide))⟩

theorem C10_witness :
    (loadModule
        { modules := [⟨"a", none, none, none, "p"⟩], activeId := none,
          sidebarOpen := true, viewerActive := false, viewerHidden := true,
          frameSrc := none, query := [], history := [] }
        "a" true).sidebarOpen = false ∧
    (showSummary
        { modules := [], activeId := none, sidebarOpen := true,
          viewerActive := true, viewerHidden := false, frameSrc := none,
          query := [], history := [] } true).sidebarOpen = false :=
  ⟨C10_sidebar_closed.1 _ "a" true (by decide), C10_sidebar_closed.2 _ true⟩

/-- C5 counterexample: with a module whose id is the empty string in the
registry and the location `?module=` (empty value), the parameter names a
module present in the registry, yet `applyLocation` shows the summary
instead of loading it — the empty string is falsy in the guard. -/
theorem C5_counterexample :
    getParam [("module", "")] "module" = some "" ∧
    hasModule [⟨"", none, none, none, "p"⟩] "" = true ∧
    applyLocation
        { modules := [⟨"", none, none, none, "p"⟩], activeId := none,
          sidebarOpen := false, viewerActive := false, viewerHidden := true,
          frameSrc := none, query := [("module", "")], history := [] } false ≠
      loadModule
        { modules := [⟨"", none, none, none, "p"⟩], activeId := none,
          sidebarOpen := false, viewerActive := false, viewerHidden := true,
          frameSrc := none, query := [("module", "")], history := [] } "" false ∧
    (applyLocation
        { modules := [⟨"", none, none, none, "p"⟩], activeId := none,
          sidebarOpen := false, viewerActive := false, viewerHidden := true,
          frameSrc := none, query := [("module", "")], history := [] }
        false).activeId = none ∧
    (loadModule
        { modules := [⟨"", none, none, none, "p"⟩], activeId := none,
          sidebarOpen := false, viewerActive := false, viewerHidden := true,
          frameSrc := none, query := [("module", "")], history := [] }
        "" false).activeId = some "" := by decide

/-- C5 (amended): `applyLocation` loads the named module without pushing
when the `module` parameter is present, nonempty and names a registry
module; otherwise (absent, empty, or unknown) it shows the summary without
pushing. -/
theorem C5_applyLocation (s : AppState) :
    (∀ mid, getParam s.query "module" = some mid → mid ≠ "" →
       hasModule s.modules mid = true →
       applyLocation s false = loadModule s mid false ∧
       (applyLocation s false).history = s.history) ∧
    (∀ mid, getParam s.query "module" = some mid →
       (mid = "" ∨ hasModule s.modules mid = false) →
       applyLocation s false = showSummary s false ∧
       (applyLocation s false).history = s.history ∧
       (applyLocation s false).query = s.query) ∧
    (getParam s.query "module" = none →
       applyLocation s false = showSummary s false ∧
       (applyLocation s false).history = s.history ∧
       (applyLocation s false).query = s.query) := by
  refine ⟨?_, ?_, ?_⟩
  · intro mid hg hne hhas
    have heq : applyLocation s false = loadModule s mid false := by
      simp only [applyLocation, hg]
      rw [if_pos (by simp [hne, hhas])]
    refine ⟨heq, ?_⟩
    rw [heq]
    exact loadModule_history_of_push_false s mid
  · intro mid hg hor
    have heq : applyLocation s false = showSummary s false := by
      simp only [applyLocation, hg]
      rw [if_neg]
      rcases hor with h | h <;> simp [h]
    refine ⟨heq, ?_, ?_⟩ <;> rw [heq]
    · exact (showSummary_push_false s).1
    · exact (showSummary_push_false s).2
  · intro hg
    have heq : applyLocation s false = showSummary s false := by
      simp only [applyLocation, hg]
    refine ⟨heq, ?_, ?_⟩ <;> rw [heq]
    · exact (showSummary_push_false s).1
    · exact (showSummary_push_false s).2

theorem C5_witness :
    applyLocation
        { modules := [⟨"y", none, none, none, "p"⟩], activeId := none,
          sidebarOpen := false, viewerActive := false, viewerHidden := true,
          frameSrc := none, query := [("module", "y")], history := [] } false =
      loadModule
        { modules := [⟨"y", none, none, none, "p"⟩], activeId := none,
          sidebarOpen := false, viewerActive := false, viewerHidden := true,
          frameSrc := none, query := [("module", "y")], history := [] }
        "y" false ∧
    (applyLocation
        { modules := [⟨"y", none, none, none, "p"⟩], activeId := none,
          sidebarOpen := false, viewerActive := false, viewerHidden := true,
          frameSrc := none, query := [("module", "y")], history := [] }
        false).history = [] :=
  (C5_applyLocation _).1 "y" (by decide) (by decide) (by decide)

/-- C6: pushing `loadModule x` for a known `x` leaves the URL's `module`
parameter equal to `x` and pushes a history entry carrying `x` and that
URL; pushing `showSummary` leaves the URL without a `module` parameter. -/
theorem C6_url_contract :
    (∀ (s : AppState) (x : String), hasModule s.modules x = true →
       getParam (loadModule s x true).query "module" = some x ∧
       (loadModule s x true).history =
         { moduleId := some x, query := (loadModule s x true).query } ::
           s.history) ∧
    (∀ s : AppState, getParam (showSummary s true).query "module" = none) := by
  constructor
  · intro s x h
    obtain ⟨m, hfind, hmem, hid⟩ := find?_some_of_hasModule h
    subst hid
    unfold loadModule
    rw [hfind]
    simp only [showViewer, setSidebarOpen, if_true]
    split_ifs <;> exact ⟨getParam_setParam _ _ _, rfl⟩
  · intro s
    by_cases h : hasParam s.query "module" = true
    · unfold showSummary
      simp only [setSidebarOpen]
      rw [if_pos (by simp [h])]
      exact getParam_delParam _ _
    · have hf : hasParam s.query "module" = false := by
        revert h
        cases hasParam s.query "module" <;> simp
      unfold showSummary
      simp only [setSidebarOpen]
      rw [if_neg (by simp [hf])]
      exact getParam_eq_none_of_hasParam_false hf

theorem C6_witness :
    getParam
      (loadModule
          { modules := [⟨"a", none, none, none, "p"⟩], activeId := none,
            sidebarOpen := false, viewerActive := false, viewerHidden := true,
            frameSrc := none, query := [], history := [] } "a" true).query
      "module" = some "a" ∧
    getParam
      (showSummary
          { modules := [], activeId := none, sidebarOpen := false,
            viewerActive := true, viewerHidden := false, frameSrc := none,
            query := [("module", "a")], history := [] } true).query
      "module" = none :=
  ⟨(C6_url_contract.1 _ "a" (by decide)).1, C6_url_contract.2 _⟩

/-- C7: the manifest load fails with the fetch error exactly on a non-ok
HTTP status, fails with the shape error exactly when the status is ok but
the parsed body is not a nonempty array, and otherwise returns the raw
element list unmodified. -/
theorem C7_fetchManifest (r : ManifestResponse) :
    ((∃ st, fetchManifest r = .error (.fetchError st)) ↔
      respOk r.status = false) ∧
    (fetchManifest r = .error .shapeError ↔
      (respOk r.status = true ∧ ∀ l, r.body = .arr l → l = [])) ∧
    (∀ l, r.body = .arr l → l ≠ [] → respOk r.status = true →
      fetchManifest r = .ok l) := by
  obtain ⟨status, body⟩ := r
  by_cases hok : respOk status = true
  · cases body with
    | arr l =>
      by_cases hl : l.length = 0
      · have hnil : l = [] := List.length_eq_zero.mp hl
        subst hnil
        refine ⟨?_, ?_, ?_⟩ <;> simp [fetchManifest, hok]
      · have hne : l ≠ [] := fun h => hl (by rw [h]; rfl)
        refine ⟨?_, ?_, ?_⟩ <;> simp [fetchManifest, hok, hl, hne]
    | null => refine ⟨?_, ?_, ?_⟩ <;> simp [fetchManifest, hok]
    | bool b => refine ⟨?_, ?_, ?_⟩ <;> simp [fetchManifest, hok]
    | num n => refine ⟨?_, ?_, ?_⟩ <;> simp [fetchManifest, hok]
    | str v => refine ⟨?_, ?_, ?_⟩ <;> simp [fetchManifest, hok]
    | obj fields => refine ⟨?_, ?_, ?_⟩ <;> simp [fetchManifest, hok]
  · have hf : respOk status = false := by
      revert hok
      cases respOk status <;> simp
    refine ⟨?_, ?_, ?_⟩ <;> simp [fetchManifest, hf]

theorem C7_witness :
    fetchManifest { status := 200, body := Json.arr [Json.null] } =
      .ok [Json.null] :=
  (C7_fetchManifest _).2.2 [Json.null] rfl (by simp) (by decide)

theorem repC_append (c : Char) (rep x y : List Char) :
    repC c rep (x ++ y) = repC c rep x ++ repC c rep y := by
  induction x with
  | nil => rfl
  | cons a as ih => simp [repC, ih, List.append_assoc]

theorem escChainL_cons (c : Char) (l : List Char) :
    escChainL (c :: l) = escChar c ++ escChainL l := by
  unfold escChainL
  rw [show repC '&' "&amp;".data (c :: l) =
        (if c = '&' then "&amp;".data else [c]) ++ repC '&' "&amp;".data l
      from rfl]
  rw [repC_append, repC_append, repC_append, repC_append]
  congr 1
  by_cases h1 : c = '&'
  · subst h1
    decide
  · rw [if_neg h1]
    by_cases h2 : c = '<'
    · subst h2
      decide
    · by_cases h3 : c = '>'
      · subst h3
        decide
      · by_cases h4 : c = Char.ofNat 34
        · subst h4
          decide
        · by_cases h5 : c = Char.ofNat 39
          · subst h5
            decide
          · simp [repC, escChar, h1, h2, h3, h4, h5]

theorem escapeHtml_data (s : String) : (escapeHtml s).data = escAll s.data := by
  show escChainL s.data = escAll s.data
  induction s.data with
  | nil => rfl
  | cons c l ih =>
    rw [escChainL_cons, escAll, ih]

theorem escChar_no_bad (a c : Char) (hc : c ∈ escChar a) :
    c ≠ '<' ∧ c ≠ '>' ∧ c ≠ Char.ofNat 34 ∧ c ≠ Char.ofNat 39 := by
  unfold escChar at hc
  split_ifs at hc
  · simp only [List.mem_cons] at hc
    rcases hc with rfl | rfl | rfl | rfl | rfl | hc <;>
      first | decide | simp at hc
  · simp only [List.mem_cons] at hc
    rcases hc with rfl | rfl | rfl | rfl | hc <;>
      first | decide | simp at hc
  · simp only [List.mem_cons] at hc
    rcases hc with rfl | rfl | rfl | rfl | hc <;>
      first | decide | simp at hc
  · simp only [List.mem_cons] at hc
    rcases hc with rfl | rfl | rfl | rfl | rfl | rfl | hc <;>
      first | decide | simp at hc
  · simp only [List.mem_cons] at hc
    rcases hc with rfl | rfl | rfl | rfl | rfl | hc <;>
      first | decide | simp at hc
  · rename_i h1 h2 h3 h4 h5
    simp only [List.mem_cons, List.not_mem_nil, or_false] at hc
    subst hc
    exact ⟨h2, h3, h4, h5⟩

theorem escAll_no_bad (l : List Char) (c : Char) (hc : c ∈ escAll l) :
    c ≠ '<' ∧ c ≠ '>' ∧ c ≠ Char.ofNat 34 ∧ c ≠ Char.ofNat 39 := by
  induction l with
  | nil => simp [escAll] at hc
  | cons a as ih =>
    simp only [escAll] at hc
    rcases List.mem_append.mp hc with h | h
    · exact escChar_no_bad a c h
    · exact ih h

/-- C8: `escapeHtml` rewrites every occurrence of the five special
characters to its entity (character by character), so its output holds no
angle bracket or quote character at all, and `"<script>"` becomes the
literal text `"&lt;script&gt;"`. -/
theorem C8_escapeHtml (s : String) :
    (escapeHtml s).data = escAll s.data ∧
    (∀ c ∈ (escapeHtml s).data,
       c ≠ '<' ∧ c ≠ '>' ∧ c ≠ Char.ofNat 34 ∧ c ≠ Char.ofNat 39) ∧
    escapeHtml "<script>" = "&lt;script&gt;" := by
  refine ⟨escapeHtml_data s, ?_, by decide⟩
  intro c hc
  rw [escapeHtml_data s] at hc
  exact escAll_no_bad _ c hc

theorem C8_witness :
    'a' ≠ '<' ∧ 'a' ≠ '>' ∧ 'a' ≠ Char.ofNat 34 ∧ 'a' ≠ Char.ofNat 39 :=
  (C8_escapeHtml "a<b").2.1 'a' (by decide)

end App
